import Mathlib

/-!
Shallow embedding of the A3C agent from chainerrl/agents/a3c.py.

The agent state, the update procedure (backward return/advantage recurrence,
loss accumulation and scaling, buffer clearing) and the public operations
act_and_train, act, stop_episode_and_train and stop_episode are translated
from the source.  Scalars (rewards, values, log probabilities, entropies,
the discount factor and the loss coefficients) are modelled as rationals;
the neural model is abstracted as a tuple of functions on observations
(the value head, and the log probability / entropy / realized sample /
most probable action of the policy head at the given observation), since
the source treats it as an external collaborator.  Gradient computation and
the optimizer step have no numeric effect on the agent-state fields the
claims are about; each completed update is recorded in a ghost history
field carrying the bootstrap value, the per-step returns, the per-step
baseline/advantage trace and the two scaled losses, which is the shallow
counterpart of the optimizer-update call and the logged diagnostics.
Python dicts keyed by the step counter become association lists (latest
insertion first), with keys in ℤ because the reward recorded by the very
first step is stored at key t - 1 = -1.
-/

variable {Obs Act : Type}

/-- Configuration of the agent: the constructor parameters of A3C that the
claims refer to (process_idx and phi are omitted: the former only selects
which worker logs, the latter is an observation preprocessor folded into
the abstract model functions). -/
structure A3CConfig where
  t_max : ℕ
  gamma : ℚ
  beta : ℚ
  clip_reward : Bool
  pi_loss_coef : ℚ
  v_loss_coef : ℚ
  keep_loss_scale_same : Bool
  normalize_grad_by_t_max : Bool
  use_average_reward : Bool
  average_reward_tau : ℚ
  act_deterministically : Bool
deriving DecidableEq

/-- Abstraction of the model: pi_and_v evaluated at an observation, with the
policy distribution reduced to the scalars and actions the agent reads from
it.  The realized sample is modelled as a function of the observation. -/
structure A3CModelFn (Obs Act : Type) where
  v : Obs → ℚ
  log_prob : Obs → ℚ
  entropy : Obs → ℚ
  sample : Obs → Act
  most_probable : Obs → Act

/-- Lookup in an association list (first match wins, matching the latest
dict write). -/
def dlookup {α : Type} (k : ℤ) : List (ℤ × α) → Option α
  | [] => none
  | (k', v) :: rest => if k = k' then some v else dlookup k rest

/-- Dict write: cons the new binding; together with first-match lookup this
has exactly the observable behaviour of a Python dict assignment. -/
def dinsert {α : Type} (k : ℤ) (v : α) (m : List (ℤ × α)) : List (ℤ × α) :=
  (k, v) :: m

/-- Lookup defaulting to 0; the update loop only reads keys that are present
in every state the loop is actually run on. -/
def dget (m : List (ℤ × ℚ)) (k : ℤ) : ℚ :=
  (dlookup k m).getD 0

/-- np.clip(reward, -1, 1). -/
def npClip (r : ℚ) : ℚ :=
  min 1 (max (-1) r)

/-- Ghost record of one completed update: bootstrap value R0, the returns R
in processing order (step t-1 first), the (step index, baseline used,
advantage) trace in processing order, and the two losses after scaling. -/
structure UpdateRecord where
  R0 : ℚ
  returns : List ℚ
  trace : List (ℤ × ℚ × ℚ)
  pi_loss : ℚ
  v_loss : ℚ
deriving DecidableEq

/-- Mutable state of the backward loop in A3C.update: the running return R,
the two accumulated losses, the average-reward baseline, plus ghost
accumulators for the returns and the (index, baseline, advantage) trace. -/
structure LoopState where
  R : ℚ
  pi_loss : ℚ
  v_loss : ℚ
  average_reward : ℚ
  returnsAcc : List ℚ
  traceAcc : List (ℤ × ℚ × ℚ)
deriving DecidableEq

/-- The backward loop of A3C.update: for i in reversed(range(t_start, t)).
The argument n is the number of steps still to process; the step handled
first by the n+1 case is i = t0 + n, so a top-level call with
t0 = t_start and n = t - t_start - 1 + 1 starts at i = t - 1 and walks

down to i = t_start, exactly as the source loop does. -/
def updateLoop (cfg : A3CConfig) (rw vf lp ent : ℤ → ℚ) (t0 : ℤ) :
    ℕ → LoopState → LoopState
  | 0, ls => ls
  | Nat.succ n, ls =>
    let i : ℤ := t0 + n
    let R1 := cfg.gamma * ls.R + rw i
    let R2 := if cfg.use_average_reward then R1 - ls.average_reward else R1
    let v_i := vf i
    let adv := R2 - v_i
    let b' := if cfg.use_average_reward then
        ls.average_reward + cfg.average_reward_tau * adv
      else ls.average_reward
    let pl := ls.pi_loss - lp i * adv - cfg.beta * ent i
    let vl := ls.v_loss + (v_i - R2) ^ 2 / 2
    updateLoop cfg rw vf lp ent t0 n
      ⟨R2, pl, vl, b', ls.returnsAcc ++ [R2], ls.traceAcc ++ [(i, ls.average_reward, adv)]⟩

/-- The post-accumulation loss transforms of A3C.update (source lines
173-188), in their order: pi_loss_coef when it is not 1, v_loss_coef when
it is not 1, the keep_loss_scale_same factor t_max / window length when the
window is shorter than the horizon, then division by the window length when
normalize_grad_by_t_max is set. -/
def scaleLosses (cfg : A3CConfig) (winLen : ℕ) (pi_loss v_loss : ℚ) : ℚ × ℚ :=
  let pl := if cfg.pi_loss_coef ≠ 1 then pi_loss * cfg.pi_loss_coef else pi_loss
  let vl := if cfg.v_loss_coef ≠ 1 then v_loss * cfg.v_loss_coef else v_loss
  let pl2 := if cfg.keep_loss_scale_same ∧ winLen < cfg.t_max then
      pl * ((cfg.t_max : ℚ) / (winLen : ℚ)) else pl
  let vl2 := if cfg.keep_loss_scale_same ∧ winLen < cfg.t_max then
      vl * ((cfg.t_max : ℚ) / (winLen : ℚ)) else vl
  if cfg.normalize_grad_by_t_max then (pl2 / (winLen : ℚ), vl2 / (winLen : ℚ))
  else (pl2, vl2)

/-- Agent state: the step counters, the five trajectory dicts, the
average-reward baseline, and the ghost history of completed updates. -/
structure A3CState (Obs : Type) where
  t : ℕ
  t_start : ℕ
  past_action_log_prob : List (ℤ × ℚ)
  past_action_entropy : List (ℤ × ℚ)
  past_states : List (ℤ × Obs)
  past_rewards : List (ℤ × ℚ)
  past_values : List (ℤ × ℚ)
  average_reward : ℚ
  history : List UpdateRecord
deriving DecidableEq

/-- The freshly constructed agent: t = 0, t_start = 0, empty dicts,
average_reward = 0. -/
def A3C.initial : A3CState Obs :=
  ⟨0, 0, [], [], [], [], [], 0, []⟩

/-- Bootstrap value R0 of an update: 0 on a terminal statevar (None), the
model value estimate otherwise; the source computes the latter with
gradient tracking disabled, which has no numeric effect here. -/
def bootstrapValue (model : A3CModelFn Obs Act) (sv : Option Obs) : ℚ :=
  match sv with
  | none => 0
  | some x => model.v x

/-- Final loop state of an update on s: the backward loop started at
R = R0 with the stored per-step scalars and the current baseline, run over
the whole window. -/
def A3C.updateLS (cfg : A3CConfig) (model : A3CModelFn Obs Act)
    (s : A3CState Obs) (sv : Option Obs) : LoopState :=
  updateLoop cfg (dget s.past_rewards) (dget s.past_values)
    (dget s.past_action_log_prob) (dget s.past_action_entropy)
    (s.t_start : ℤ) (s.t - s.t_start)
    ⟨bootstrapValue model sv, 0, 0, s.average_reward, [], []⟩

/-- Ghost record of an update on s: the loop outputs plus the losses after
the post-accumulation transforms. -/
def A3C.updateRec (cfg : A3CConfig) (model : A3CModelFn Obs Act)
    (s : A3CState Obs) (sv : Option Obs) : UpdateRecord :=
  ⟨bootstrapValue model sv,
   (A3C.updateLS cfg model s sv).returnsAcc,
   (A3C.updateLS cfg model s sv).traceAcc,
   (scaleLosses cfg (s.t - s.t_start) (A3C.updateLS cfg model s sv).pi_loss
     (A3C.updateLS cfg model s sv).v_loss).1,
   (scaleLosses cfg (s.t - s.t_start) (A3C.updateLS cfg model s sv).pi_loss
     (A3C.updateLS cfg model s sv).v_loss).2⟩

/-- Successful-update result on s: dicts cleared, t_start advanced to t,
the baseline as left by the loop, and the ghost record appended. -/
def A3C.updateOk (cfg : A3CConfig) (model : A3CModelFn Obs Act)
    (s : A3CState Obs) (sv : Option Obs) : A3CState Obs :=
  { s with
    past_action_log_prob := []
    past_action_entropy := []
    past_states := []
    past_rewards := []
    past_values := []
    t_start := s.t
    average_reward := (A3C.updateLS cfg model s sv).average_reward
    history := s.history ++ [A3C.updateRec cfg model s sv] }

/-- A3C.update.  The assert t_start < t becomes the if guard: on violation
the Python AssertionError propagates with the object state intact, which is
modelled by returning the current state in the error constructor.  On
success the returns/advantages are computed by the backward loop, the
losses are scaled, the five dicts are cleared and t_start is set to t; the
gradient/optimizer steps are recorded as one ghost history entry. -/
def A3C.update (cfg : A3CConfig) (model : A3CModelFn Obs Act)
    (s : A3CState Obs) (statevar : Option Obs) :
    Except (A3CState Obs) (A3CState Obs) :=
  if s.t_start < s.t then .ok (A3C.updateOk cfg model s statevar)
  else .error s

/-- The reward-recording prefix shared by act_and_train and
stop_episode_and_train: clip if configured, then write past_rewards[t-1]. -/
def A3C.record_reward (cfg : A3CConfig) (s : A3CState Obs) (reward : ℚ) :
    A3CState Obs :=
  { s with
    past_rewards := dinsert ((s.t : ℤ) - 1)
      (if cfg.clip_reward then npClip reward else reward) s.past_rewards }

/-- Recording of a new trajectory entry at index t followed by t += 1
(source lines 234-241). -/
def A3C.addEntry (model : A3CModelFn Obs Act) (s : A3CState Obs)
    (state : Obs) : A3CState Obs :=
  { s with
    past_states := dinsert (s.t : ℤ) state s.past_states
    past_action_log_prob := dinsert (s.t : ℤ) (model.log_prob state) s.past_action_log_prob
    past_action_entropy := dinsert (s.t : ℤ) (model.entropy state) s.past_action_entropy
    past_values := dinsert (s.t : ℤ) (model.v state) s.past_values
    t := s.t + 1 }

/-- The part of act_and_train after the reward write: update when the window
has reached the horizon (bootstrapping on the current observation), then
record the new entry and return the sampled action. -/
def A3C.train_step (cfg : A3CConfig) (model : A3CModelFn Obs Act)
    (s1 : A3CState Obs) (state : Obs) :
    Except (A3CState Obs) (Act × A3CState Obs) :=
  if (s1.t : ℤ) - (s1.t_start : ℤ) = (cfg.t_max : ℤ) then
    match A3C.update cfg model s1 (some state) with
    | .error e => .error e
    | .ok s2 => .ok (model.sample state, A3C.addEntry model s2 state)
  else .ok (model.sample state, A3C.addEntry model s1 state)

/-- A3C.act_and_train. -/
def A3C.act_and_train (cfg : A3CConfig) (model : A3CModelFn Obs Act)
    (s : A3CState Obs) (state : Obs) (reward : ℚ) :
    Except (A3CState Obs) (Act × A3CState Obs) :=
  A3C.train_step cfg model (A3C.record_reward cfg s reward) state

/-- A3C.act: pure inference, no state writes. -/
def A3C.act (cfg : A3CConfig) (model : A3CModelFn Obs Act)
    (s : A3CState Obs) (obs : Obs) : Act × A3CState Obs :=
  (if cfg.act_deterministically then model.most_probable obs
   else model.sample obs, s)

/-- A3C.stop_episode_and_train: record the final reward, then update with
bootstrap 0 (done) or with the value estimate at the given state. -/
def A3C.stop_episode_and_train (cfg : A3CConfig) (model : A3CModelFn Obs Act)
    (s : A3CState Obs) (state : Obs) (reward : ℚ) (done : Bool) :
    Except (A3CState Obs) (A3CState Obs) :=
  let s1 := A3C.record_reward cfg s reward
  if done then A3C.update cfg model s1 none
  else A3C.update cfg model s1 (some state)

/-- A3C.stop_episode only resets recurrent model state; on the agent state
modelled here it is the identity. -/
def A3C.stop_episode (s : A3CState Obs) : A3CState Obs :=
  s

/-- One public operation of the agent interface. -/
inductive A3COp (Obs : Type) where
  | act_and_train (state : Obs) (reward : ℚ)
  | act (obs : Obs)
  | stop_episode_and_train (state : Obs) (reward : ℚ) (done : Bool)
  | stop_episode

/-- Effect of one public operation on the agent state (returned actions are
dropped; a propagating AssertionError is the error case). -/
def runOp (cfg : A3CConfig) (model : A3CModelFn Obs Act) (s : A3CState Obs) :
    A3COp Obs → Except (A3CState Obs) (A3CState Obs)
  | .act_and_train state reward =>
    match A3C.act_and_train cfg model s state reward with
    | .error e => .error e
    | .ok (_, s') => .ok s'
  | .act obs => .ok (A3C.act cfg model s obs).2
  | .stop_episode_and_train state reward done =>
    A3C.stop_episode_and_train cfg model s state reward done
  | .stop_episode => .ok (A3C.stop_episode s)

/-- Run a sequence of public operations, stopping at the first failure. -/
def runOps (cfg : A3CConfig) (model : A3CModelFn Obs Act) (s : A3CState Obs) :
    List (A3COp Obs) → Except (A3CState Obs) (A3CState Obs)
  | [] => .ok s
  | op :: ops =>
    match runOp cfg model s op with
    | .error e => .error e
    | .ok s' => runOps cfg model s' ops

/-- Whether an operation is a stop_episode_and_train call. -/
def A3COp.isTrainStop : A3COp Obs → Bool
  | .stop_episode_and_train _ _ _ => true
  | _ => false

/-- The return closed form exactly as the claim states it, with the factor
gamma ^ (j - k + 1) on reward r_j (here reindexed by j = k + j'); kept
verbatim from the claim so that it can be compared with what the code
computes. -/
def specClaimReturn (gamma R0 : ℚ) (r : ℕ → ℚ) (n k : ℕ) : ℚ :=
  (∑ j ∈ Finset.range (n - k), gamma ^ (j + 1) * r (k + j)) + gamma ^ (n - k) * R0

/-- Default update record, used only as the getD fallback. -/
def recDefault : UpdateRecord :=
  ⟨0, [], [], 0, 0⟩

/-- The return computed for window position k (that is, step t_start + k)
of an update over a window of length n: the returns list is in processing
order (step t - 1 first), so position k sits at list index n - 1 - k. -/
def returnAt (rec : UpdateRecord) (n k : ℕ) : ℚ :=
  rec.returns.getD (n - 1 - k) 0

/-- Trace entry of the m-th processed step of an update. -/
def traceEntryAt (rec : UpdateRecord) (m : ℕ) : ℤ × ℚ × ℚ :=
  rec.trace.getD m (0, 0, 0)

/-- Step index of the m-th processed step. -/
def stepIndexAt (rec : UpdateRecord) (m : ℕ) : ℤ :=
  (traceEntryAt rec m).1

/-- Baseline value read when the advantage of the m-th processed step was
computed. -/
def baselineUsedAt (rec : UpdateRecord) (m : ℕ) : ℚ :=
  (traceEntryAt rec m).2.1

/-- Advantage of the m-th processed step. -/
def advantageAt (rec : UpdateRecord) (m : ℕ) : ℚ :=
  (traceEntryAt rec m).2.2

/-- Pure recursion computing the list of returns produced by the backward
loop when average-reward mode is off: the n+1 case is step t0 + n. -/
def loopReturns (gamma : ℚ) (rw : ℤ → ℚ) (t0 : ℤ) : ℕ → ℚ → List ℚ
  | 0, _ => []
  | Nat.succ n, R =>
    let R1 := gamma * R + rw (t0 + n)
    R1 :: loopReturns gamma rw t0 n R1

/-- Pure recursion computing the (index, baseline used, advantage) trace of
the backward loop when average-reward mode is on. -/
def avgTrace (gamma tau : ℚ) (rw vf : ℤ → ℚ) (t0 : ℤ) :
    ℕ → ℚ → ℚ → List (ℤ × ℚ × ℚ)
  | 0, _, _ => []
  | Nat.succ n, R, b =>
    let R2 := gamma * R + rw (t0 + n) - b
    let adv := R2 - vf (t0 + n)
    (t0 + n, b, adv) :: avgTrace gamma tau rw vf t0 n R2 (b + tau * adv)

/-- Window well-formedness: t_start ≤ t and the window is no longer than
the horizon. -/
def WinInv (cfg : A3CConfig) (s : A3CState Obs) : Prop :=
  s.t_start ≤ s.t ∧ (s.t : ℤ) - (s.t_start : ℤ) ≤ (cfg.t_max : ℤ)

/-- Two agent states that agree everywhere except possibly on rewards
stored at indices below t_start (stale entries outside the open window). -/
def RewEquiv (s1 s2 : A3CState Obs) : Prop :=
  s1.t = s2.t ∧ s1.t_start = s2.t_start ∧
  s1.past_action_log_prob = s2.past_action_log_prob ∧
  s1.past_action_entropy = s2.past_action_entropy ∧
  s1.past_states = s2.past_states ∧
  s1.past_values = s2.past_values ∧
  s1.average_reward = s2.average_reward ∧
  s1.history = s2.history ∧
  ∀ i : ℤ, (s1.t_start : ℤ) ≤ i →
    dlookup i s1.past_rewards = dlookup i s2.past_rewards

/-- Lifting of RewEquiv to operation results: both succeed or both fail,
with related states either way. -/
def StepRel (x y : Except (A3CState Obs) (A3CState Obs)) : Prop :=
  match x, y with
  | .ok a, .ok b => RewEquiv a b
  | .error a, .error b => RewEquiv a b
  | _, _ => False

/-- Observable agreement: same update history (hence identical returns,
losses and update count), same counters, same baseline. -/
def ObsEquiv (s1 s2 : A3CState Obs) : Prop :=
  s1.history = s2.history ∧ s1.t = s2.t ∧ s1.t_start = s2.t_start ∧
  s1.average_reward = s2.average_reward

/-- Lifting of ObsEquiv to operation results. -/
def RunObsRel (x y : Except (A3CState Obs) (A3CState Obs)) : Prop :=
  match x, y with
  | .ok a, .ok b => ObsEquiv a b
  | .error a, .error b => ObsEquiv a b
  | _, _ => False

/-- Extract the state from an operation result (either constructor). -/
def exOk (x : Except (A3CState Obs) (A3CState Obs)) : A3CState Obs :=
  match x with
  | .ok s => s
  | .error e => e

/-- Extract the action/state pair from a successful act_and_train result. -/
def exOkP (d : Act) (x : Except (A3CState Obs) (Act × A3CState Obs)) :
    Act × A3CState Obs :=
  match x with
  | .ok p => p
  | .error e => (d, e)

/-- Constant-zero model on rational observations, used by the concrete
instantiations. -/
def mZero : A3CModelFn ℚ ℚ :=
  ⟨fun _ => 0, fun _ => 0, fun _ => 0, fun _ => 0, fun _ => 0⟩

/-- The section 8.7 scenario configuration: horizon 3, gamma 0.9, all
scaling switched off. -/
def cfg87 : A3CConfig :=
  ⟨3, 9/10, 1/100, false, 1, 1, false, false, false, 1/100, false⟩

/-- The three act_and_train calls of the scenario, feeding rewards
0 (initial dummy), 1, 1. -/
def ops87part : List (A3COp ℚ) :=
  [.act_and_train 0 0, .act_and_train 0 1, .act_and_train 0 1]

/-- The scenario including the final terminal step with reward 1. -/
def ops87full : List (A3COp ℚ) :=
  ops87part ++ [.stop_episode_and_train 0 1 true]

/-- State after the three act_and_train calls of the scenario. -/
def s87c : A3CState ℚ :=
  exOk (runOps cfg87 mZero A3C.initial ops87part)

/-- State after the full scenario including the terminal step. -/
def s87d : A3CState ℚ :=
  exOk (runOps cfg87 mZero A3C.initial ops87full)

/-- Result of one act_and_train call on the fresh agent under cfg87. -/
def p5 : ℚ × A3CState ℚ :=
  exOkP 0 (A3C.act_and_train cfg87 mZero A3C.initial 0 0)

/-- Configuration for the one-step update instances: gamma 1/2, all modes
off. -/
def cfgC1 : A3CConfig :=
  ⟨2, 1/2, 0, false, 1, 1, false, false, false, 0, false⟩

/-- A state holding a window of length one with reward 1 and value 0. -/
def sC1 : A3CState ℚ :=
  ⟨1, 0, [(0, 0)], [(0, 0)], [(0, 0)], [(0, 1)], [(0, 0)], 0, []⟩

/-- Result of a terminal update on sC1. -/
def sC1' : A3CState ℚ :=
  exOk (A3C.update cfgC1 mZero sC1 none)

/-- The update record produced by that update. -/
def recC1 : UpdateRecord :=
  sC1'.history.getD 0 recDefault

/-- Average-reward-mode configuration: gamma 1/2, tau 1/10. -/
def cfgC2 : A3CConfig :=
  ⟨2, 1/2, 0, false, 1, 1, false, false, true, 1/10, false⟩

/-- A state holding a window of length two with rewards 1, 1. -/
def sC2 : A3CState ℚ :=
  ⟨2, 0, [(1, 0), (0, 0)], [(1, 0), (0, 0)], [(1, 0), (0, 0)],
   [(1, 1), (0, 1)], [(1, 0), (0, 0)], 0, []⟩

/-- Result of a terminal update on sC2 in average-reward mode. -/
def sC2' : A3CState ℚ :=
  exOk (A3C.update cfgC2 mZero sC2 none)

/-- Configuration with reward clipping on and horizon 1. -/
def cfgE : A3CConfig :=
  ⟨1, 1/2, 0, true, 1, 1, false, false, false, 0, false⟩

/-- The state in which a stop_episode_and_train call on the fresh agent
fails: the reward write has happened, nothing else. -/
def eC7 : A3CState ℚ :=
  exOk (A3C.stop_episode_and_train cfgE mZero A3C.initial 0 5 true)

/-- Degenerate configuration with horizon 0, under which act_and_train on a
fresh agent reaches the empty-window update. -/
def cfgZ : A3CConfig :=
  ⟨0, 1/2, 0, true, 1, 1, false, false, false, 0, false⟩

/-- The state in which that act_and_train call fails. -/
def eZ : A3CState ℚ :=
  (exOkP 0 (A3C.act_and_train cfgZ mZero A3C.initial 0 5)).2

/-- The state in which stop_episode_and_train fails on a fresh agent under
cfgZ. -/
def eSeatZ : A3CState ℚ :=
  exOk (A3C.stop_episode_and_train cfgZ mZero A3C.initial 0 5 true)

/-- What happens around the update boundary of one act_and_train call from
state s with observation o and reward r yielding state s': an update runs
if and only if the window had reached the horizon at entry, in which case
the update consumed exactly the old window (with the just-recorded reward)
using the current observation as non-terminal bootstrap, before the new
entry was recorded. -/
def UpdateBoundarySpec (cfg : A3CConfig) (model : A3CModelFn Obs Act)
    (s : A3CState Obs) (o : Obs) (r : ℚ) (s' : A3CState Obs) : Prop :=
  (s'.history.length = s.history.length + 1 ↔
    (s.t : ℤ) - (s.t_start : ℤ) = (cfg.t_max : ℤ)) ∧
  ((s.t : ℤ) - (s.t_start : ℤ) ≠ (cfg.t_max : ℤ) → s'.history = s.history) ∧
  ((s.t : ℤ) - (s.t_start : ℤ) = (cfg.t_max : ℤ) →
    s'.history = s.history ++
      [A3C.updateRec cfg model (A3C.record_reward cfg s r) (some o)] ∧
    (A3C.updateRec cfg model (A3C.record_reward cfg s r) (some o)).R0 =
      model.v o ∧
    s'.t_start = s.t ∧ s'.past_rewards = [] ∧
    s'.past_states = [((s.t : ℤ), o)])

/-- The section 8.7 scenario: three act_and_train calls cause no update,
the terminal step causes exactly one. -/
def Scenario87 : Prop :=
  runOps cfg87 mZero A3C.initial ops87part = .ok s87c ∧ s87c.history = [] ∧
  runOps cfg87 mZero A3C.initial ops87full = .ok s87d ∧
  s87d.history.length = 1

/-- After a failed training operation on state s with reward argument r,
state e differs from s only in the past_rewards entry at index t - 1, which
holds the (possibly clipped) reward. -/
def OnlyRewardWrite (cfg : A3CConfig) (s e : A3CState Obs) (r : ℚ) : Prop :=
  e.t = s.t ∧ e.t_start = s.t_start ∧ e.average_reward = s.average_reward ∧
  e.history = s.history ∧
  e.past_action_log_prob = s.past_action_log_prob ∧
  e.past_action_entropy = s.past_action_entropy ∧
  e.past_states = s.past_states ∧ e.past_values = s.past_values ∧
  (∀ i : ℤ, i ≠ (s.t : ℤ) - 1 →
    dlookup i e.past_rewards = dlookup i s.past_rewards) ∧
  dlookup ((s.t : ℤ) - 1) e.past_rewards =
    some (if cfg.clip_reward then npClip r else r)

theorem dlookup_dinsert {α : Type} (i k : ℤ) (v : α) (m : List (ℤ × α)) :
    dlookup i (dinsert k v m) = if i = k then some v else dlookup i m := by
  simp [dinsert, dlookup]

theorem update_eq_ok {cfg : A3CConfig} {model : A3CModelFn Obs Act}
    {s : A3CState Obs} {sv : Option Obs} (h : s.t_start < s.t) :
    A3C.update cfg model s sv = .ok (A3C.updateOk cfg model s sv) := by
  simp [A3C.update, h]

theorem update_eq_error {cfg : A3CConfig} {model : A3CModelFn Obs Act}
    {s : A3CState Obs} {sv : Option Obs} (h : ¬ s.t_start < s.t) :
    A3C.update cfg model s sv = .error s := by
  simp [A3C.update, h]

theorem update_lt_of_ok {cfg : A3CConfig} {model : A3CModelFn Obs Act}
    {s s' : A3CState Obs} {sv : Option Obs}
    (h : A3C.update cfg model s sv = .ok s') : s.t_start < s.t := by
  by_cases hlt : s.t_start < s.t
  · exact hlt
  · simp [A3C.update, hlt] at h

theorem update_ok_elim {cfg : A3CConfig} {model : A3CModelFn Obs Act}
    {s s' : A3CState Obs} {sv : Option Obs}
    (h : A3C.update cfg model s sv = .ok s') :
    s' = A3C.updateOk cfg model s sv := by
  have hlt := update_lt_of_ok h
  rw [update_eq_ok hlt] at h
  exact (Except.ok.injEq _ _ ▸ h).symm

/-- C4: after every successful update, t_start equals t and all five
trajectory maps are empty. -/
theorem update_clears_window (cfg : A3CConfig) (model : A3CModelFn Obs Act)
    (s s' : A3CState Obs) (sv : Option Obs)
    (hOk : A3C.update cfg model s sv = .ok s') :
    s'.t_start = s'.t ∧ s'.past_action_log_prob = [] ∧
    s'.past_action_entropy = [] ∧ s'.past_states = [] ∧
    s'.past_rewards = [] ∧ s'.past_values = [] := by
  have h := update_ok_elim hOk
  subst h
  simp [A3C.updateOk]

theorem update_clears_window_witness :
    A3C.update cfgC1 mZero sC1 none = .ok sC1' ∧
    (sC1'.t_start = sC1'.t ∧ sC1'.past_action_log_prob = [] ∧
     sC1'.past_action_entropy = [] ∧ sC1'.past_states = [] ∧
     sC1'.past_rewards = [] ∧ sC1'.past_values = []) :=
  ⟨rfl, update_clears_window cfgC1 mZero sC1 sC1' none rfl⟩

/-- C9: act leaves the whole agent state unchanged and returns the most
probable action in deterministic mode, a sample otherwise. -/
theorem act_is_pure (cfg : A3CConfig) (model : A3CModelFn Obs Act)
    (s : A3CState Obs) (obs : Obs) :
    (A3C.act cfg model s obs).2 = s ∧
    (A3C.act cfg model s obs).1 =
      (if cfg.act_deterministically then model.most_probable obs
       else model.sample obs) :=
  ⟨rfl, rfl⟩

theorem mul_coef_if (x c : ℚ) : (if c ≠ 1 then x * c else x) = x * c := by
  by_cases h : c = 1 <;> simp [h]

/-- C3: the post-accumulation loss transforms amount to multiplying by the
two coefficients, then by the keep-loss-scale factor t_max/winLen exactly
when that mode is on and the window is shorter than the horizon, then
dividing by winLen exactly when normalize-by-horizon is on; at a
full-length window the keep-loss-scale step is a no-op. -/
theorem scaleLosses_closed_form (cfg : A3CConfig) (winLen : ℕ) (pl vl : ℚ) :
    (scaleLosses cfg winLen pl vl =
      (pl * cfg.pi_loss_coef *
        (if cfg.keep_loss_scale_same ∧ winLen < cfg.t_max then
          (cfg.t_max : ℚ) / (winLen : ℚ) else 1) /
        (if cfg.normalize_grad_by_t_max then (winLen : ℚ) else 1),
       vl * cfg.v_loss_coef *
        (if cfg.keep_loss_scale_same ∧ winLen < cfg.t_max then
          (cfg.t_max : ℚ) / (winLen : ℚ) else 1) /
        (if cfg.normalize_grad_by_t_max then (winLen : ℚ) else 1))) ∧
    (winLen = cfg.t_max →
      (if cfg.keep_loss_scale_same ∧ winLen < cfg.t_max then
        (cfg.t_max : ℚ) / (winLen : ℚ) else 1) = 1 ∧
      ∀ b, scaleLosses { cfg with keep_loss_scale_same := b } winLen pl vl =
        scaleLosses cfg winLen pl vl) := by
  constructor
  · unfold scaleLosses
    rw [mul_coef_if, mul_coef_if]
    split_ifs <;> simp <;> ring
  · intro hfull
    have hnot : ¬ winLen < cfg.t_max := by omega
    constructor
    · simp [hnot]
    · intro b
      unfold scaleLosses
      simp [hnot]

/-- C8: with clipping enabled both training entry points store the clipped
reward np.clip(r, -1, 1) at index t - 1, and the concrete raw rewards
-5, 0.5, 5 are stored as -1, 0.5, 1. -/
theorem clipped_reward_stored (cfg : A3CConfig) (hc : cfg.clip_reward = true) :
    (∀ (s : A3CState Obs) (r : ℚ),
      dlookup ((s.t : ℤ) - 1) (A3C.record_reward cfg s r).past_rewards =
        some (npClip r)) ∧
    npClip (-5) = -1 ∧ npClip (1/2) = 1/2 ∧ npClip 5 = 1 ∧
    (∀ (model : A3CModelFn Obs Act) (s : A3CState Obs) (o : Obs) (r : ℚ),
      A3C.act_and_train cfg model s o r =
        A3C.train_step cfg model (A3C.record_reward cfg s r) o) ∧
    (∀ (model : A3CModelFn Obs Act) (s : A3CState Obs) (o : Obs) (r : ℚ)
      (d : Bool),
      A3C.stop_episode_and_train cfg model s o r d =
        (if d then A3C.update cfg model (A3C.record_reward cfg s r) none
         else A3C.update cfg model (A3C.record_reward cfg s r) (some o))) := by
  refine ⟨?_, ?_, ?_, ?_, fun _ _ _ _ => rfl, fun _ _ _ _ _ => rfl⟩
  · intro s r
    simp [A3C.record_reward, hc, dlookup_dinsert]
  · unfold npClip
    rw [max_eq_left (by norm_num), min_eq_right (by norm_num)]
  · unfold npClip
    rw [max_eq_right (by norm_num), min_eq_right (by norm_num)]
  · unfold npClip
    rw [max_eq_right (by norm_num), min_eq_left (by norm_num)]

theorem clipped_reward_stored_witness :
    cfgE.clip_reward = true ∧
    dlookup (((A3C.initial : A3CState ℚ).t : ℤ) - 1)
      (A3C.record_reward cfgE (A3C.initial : A3CState ℚ) (-5)).past_rewards =
        some (npClip (-5)) ∧
    npClip (-5) = -1 ∧ npClip (1/2) = 1/2 ∧ npClip 5 = 1 :=
  ⟨rfl,
   (@clipped_reward_stored ℚ ℚ cfgE rfl).1 A3C.initial (-5),
   (@clipped_reward_stored ℚ ℚ cfgE rfl).2.1,
   (@clipped_reward_stored ℚ ℚ cfgE rfl).2.2.1,
   (@clipped_reward_stored ℚ ℚ cfgE rfl).2.2.2.1⟩

/-- C7 counterexample: a stop_episode_and_train call that fails the
empty-window precondition has already mutated past_rewards, so the claim
that no partial state mutation is observable is false on the code. -/
theorem failed_train_mutates_rewards :
    ∃ e, A3C.stop_episode_and_train cfgE mZero A3C.initial 0 5 true =
      .error e ∧ e.past_rewards ≠ (A3C.initial : A3CState ℚ).past_rewards :=
  ⟨eC7, rfl, by decide⟩

theorem seat_error_elim {cfg : A3CConfig} {model : A3CModelFn Obs Act}
    {s e : A3CState Obs} {o : Obs} {r : ℚ} {d : Bool}
    (h : A3C.stop_episode_and_train cfg model s o r d = .error e) :
    e = A3C.record_reward cfg s r ∧ ¬ s.t_start < s.t := by
  unfold A3C.stop_episode_and_train at h
  by_cases hlt : s.t_start < s.t
  · have hlt' : (A3C.record_reward cfg s r).t_start <
        (A3C.record_reward cfg s r).t := hlt
    cases d <;> simp [update_eq_ok hlt'] at h
  · have hlt' : ¬ (A3C.record_reward cfg s r).t_start <
        (A3C.record_reward cfg s r).t := hlt
    cases d <;> simp [update_eq_error hlt'] at h <;> exact ⟨h.symm, hlt⟩

theorem aat_error_elim {cfg : A3CConfig} {model : A3CModelFn Obs Act}
    {s e : A3CState Obs} {o : Obs} {r : ℚ}
    (h : A3C.act_and_train cfg model s o r = .error e) :
    e = A3C.record_reward cfg s r ∧ ¬ s.t_start < s.t := by
  unfold A3C.act_and_train A3C.train_step at h
  by_cases hc : ((A3C.record_reward cfg s r).t : ℤ) -
      ((A3C.record_reward cfg s r).t_start : ℤ) = (cfg.t_max : ℤ)
  · rw [if_pos hc] at h
    by_cases hlt : (A3C.record_reward cfg s r).t_start <
        (A3C.record_reward cfg s r).t
    · rw [update_eq_ok hlt] at h
      simp at h
    · rw [update_eq_error hlt] at h
      simp at h
      exact ⟨h.symm, hlt⟩
  · rw [if_neg hc] at h
    simp at h

theorem record_reward_only_reward (cfg : A3CConfig) (s : A3CState Obs)
    (r : ℚ) : OnlyRewardWrite cfg s (A3C.record_reward cfg s r) r := by
  unfold OnlyRewardWrite A3C.record_reward
  refine ⟨rfl, rfl, rfl, rfl, rfl, rfl, rfl, rfl, ?_, ?_⟩
  · intro i hi
    rw [dlookup_dinsert, if_neg hi]
  · rw [dlookup_dinsert, if_pos rfl]

/-- C7 amended: when act_and_train or stop_episode_and_train fails with the
empty-window protocol violation, the failure state differs from the entry
state only in the past_rewards entry at index t - 1, which holds the
(possibly clipped) reward argument; counters, baseline and the other four
maps are untouched. -/
theorem failed_train_mutation_bounded (cfg : A3CConfig)
    (model : A3CModelFn Obs Act) (s e s2 e2 : A3CState Obs) (o o2 : Obs)
    (r r2 : ℚ) (d : Bool)
    (hSeat : A3C.stop_episode_and_train cfg model s o r d = .error e)
    (hAat : A3C.act_and_train cfg model s2 o2 r2 = .error e2) :
    OnlyRewardWrite cfg s e r ∧ OnlyRewardWrite cfg s2 e2 r2 := by
  obtain ⟨he, -⟩ := seat_error_elim hSeat
  obtain ⟨he2, -⟩ := aat_error_elim hAat
  subst he
  subst he2
  exact ⟨record_reward_only_reward cfg s r,
    record_reward_only_reward cfg s2 r2⟩

theorem failed_train_mutation_bounded_witness :
    A3C.stop_episode_and_train cfgZ mZero A3C.initial 0 5 true =
      .error eSeatZ ∧
    A3C.act_and_train cfgZ mZero A3C.initial 0 5 = .error eZ ∧
    (OnlyRewardWrite cfgZ A3C.initial eSeatZ 5 ∧
     OnlyRewardWrite cfgZ A3C.initial eZ 5) :=
  ⟨rfl, rfl,
   failed_train_mutation_bounded cfgZ mZero A3C.initial eSeatZ A3C.initial
     eZ 0 0 5 5 true rfl rfl⟩

theorem act_and_train_ok (cfg : A3CConfig) (model : A3CModelFn Obs Act)
    (s : A3CState Obs) (o : Obs) (r : ℚ) (htm : 1 ≤ cfg.t_max)
    (hInv : WinInv cfg s) :
    ∃ a s', A3C.act_and_train cfg model s o r = .ok (a, s') ∧
      WinInv cfg s' := by
  unfold A3C.act_and_train A3C.train_step
  by_cases hc : ((A3C.record_reward cfg s r).t : ℤ) -
      ((A3C.record_reward cfg s r).t_start : ℤ) = (cfg.t_max : ℤ)
  · have hc' : (s.t : ℤ) - (s.t_start : ℤ) = (cfg.t_max : ℤ) := hc
    have hlt : (A3C.record_reward cfg s r).t_start <
        (A3C.record_reward cfg s r).t := by
      show s.t_start < s.t
      omega
    rw [if_pos hc, update_eq_ok hlt]
    refine ⟨_, _, rfl, ?_⟩
    unfold WinInv A3C.addEntry A3C.updateOk A3C.record_reward
    constructor
    · simp
    · simp
      omega
  · rw [if_neg hc]
    refine ⟨_, _, rfl, ?_⟩
    have hc' : ¬ (s.t : ℤ) - (s.t_start : ℤ) = (cfg.t_max : ℤ) := hc
    obtain ⟨h1, h2⟩ := hInv
    unfold WinInv A3C.addEntry A3C.record_reward
    constructor
    · simp
      omega
    · simp
      omega

theorem seat_ok (cfg : A3CConfig) (model : A3CModelFn Obs Act)
    (s : A3CState Obs) (o : Obs) (r : ℚ) (d : Bool)
    (hlt : s.t_start < s.t) :
    A3C.stop_episode_and_train cfg model s o r d =
      .ok (A3C.updateOk cfg model (A3C.record_reward cfg s r)
        (if d then none else some o)) := by
  have hlt' : (A3C.record_reward cfg s r).t_start <
      (A3C.record_reward cfg s r).t := hlt
  unfold A3C.stop_episode_and_train
  cases d
  · simp [update_eq_ok hlt']
  · simp [update_eq_ok hlt']

theorem runOps_safe (cfg : A3CConfig) (model : A3CModelFn Obs Act)
    (htm : 1 ≤ cfg.t_max) :
    ∀ ops : List (A3COp Obs), (∀ op ∈ ops, op.isTrainStop = false) →
    ∀ s : A3CState Obs, WinInv cfg s →
    ∃ s', runOps cfg model s ops = .ok s' ∧ WinInv cfg s' := by
  intro ops
  induction ops with
  | nil => exact fun _ s hs => ⟨s, rfl, hs⟩
  | cons op ops ih =>
    intro hno s hs
    have hop : op.isTrainStop = false := hno op (List.mem_cons_self op ops)
    have hops : ∀ op ∈ ops, A3COp.isTrainStop op = false :=
      fun op h => hno op (List.mem_cons_of_mem _ h)
    cases op with
    | act_and_train o r =>
      obtain ⟨a, s', hok, hinv⟩ := act_and_train_ok cfg model s o r htm hs
      obtain ⟨s'', hrun, hinv'⟩ := ih hops s' hinv
      exact ⟨s'', by simp [runOps, runOp, hok, hrun], hinv'⟩
    | act o =>
      obtain ⟨s'', hrun, hinv'⟩ := ih hops s hs
      exact ⟨s'', by simp [runOps, runOp, A3C.act, hrun], hinv'⟩
    | stop_episode_and_train o r d => simp [A3COp.isTrainStop] at hop
    | stop_episode =>
      obtain ⟨s'', hrun, hinv'⟩ := ih hops s hs
      exact ⟨s'', by simp [runOps, runOp, A3C.stop_episode, hrun], hinv'⟩

/-- C6 counterexample: from a freshly constructed agent, the single public
call stop_episode_and_train already invokes the update path with an empty
window and fails, so the empty-window failure is reachable through the
public interface. -/
theorem empty_window_reachable :
    ∃ e, runOps cfgE mZero A3C.initial
      [A3COp.stop_episode_and_train 0 0 true] = .error e :=
  ⟨_, rfl⟩

/-- C6 amended: with a positive horizon, no sequence of act_and_train, act
and stop_episode calls from a fresh agent ever invokes the update path with
an empty window; and stop_episode_and_train avoids it exactly when its own
window is nonempty (t_start < t), so only a stop_episode_and_train call on
an empty window can reach the failure. -/
theorem empty_window_unreachable_without_stop_train (cfg : A3CConfig)
    (model : A3CModelFn Obs Act) (htm : 1 ≤ cfg.t_max) :
    (∀ ops : List (A3COp Obs), (∀ op ∈ ops, op.isTrainStop = false) →
      ∃ s', runOps cfg model A3C.initial ops = .ok s') ∧
    (∀ (s : A3CState Obs) (o : Obs) (r : ℚ) (d : Bool), s.t_start < s.t →
      ∃ s', A3C.stop_episode_and_train cfg model s o r d = .ok s') := by
  constructor
  · intro ops hno
    have hInv : WinInv cfg (A3C.initial : A3CState Obs) := by
      unfold WinInv A3C.initial
      simp
    obtain ⟨s', h, -⟩ := runOps_safe cfg model htm ops hno A3C.initial hInv
    exact ⟨s', h⟩
  · intro s o r d hlt
    exact ⟨_, seat_ok cfg model s o r d hlt⟩

theorem empty_window_unreachable_witness :
    (∃ s', runOps cfg87 mZero A3C.initial
      [A3COp.act_and_train 0 0, A3COp.act 0, A3COp.stop_episode] =
        .ok s') ∧
    (∃ s', A3C.stop_episode_and_train cfg87 mZero sC1 0 0 true = .ok s') :=
  ⟨(empty_window_unreachable_without_stop_train cfg87 mZero
      (by decide)).1
    [A3COp.act_and_train 0 0, A3COp.act 0, A3COp.stop_episode] (by decide),
   (empty_window_unreachable_without_stop_train cfg87 mZero
      (by decide)).2 sC1 0 0 true (by decide)⟩

theorem aat_ok_cases {cfg : A3CConfig} {model : A3CModelFn Obs Act}
    {s : A3CState Obs} {o : Obs} {r : ℚ} {p : Act × A3CState Obs}
    (h : A3C.act_and_train cfg model s o r = .ok p) :
    (¬ ((s.t : ℤ) - (s.t_start : ℤ) = (cfg.t_max : ℤ)) ∧
      p.2 = A3C.addEntry model (A3C.record_reward cfg s r) o) ∨
    ((s.t : ℤ) - (s.t_start : ℤ) = (cfg.t_max : ℤ) ∧ s.t_start < s.t ∧
      p.2 = A3C.addEntry model
        (A3C.updateOk cfg model (A3C.record_reward cfg s r) (some o)) o) := by
  unfold A3C.act_and_train A3C.train_step at h
  by_cases hc : ((A3C.record_reward cfg s r).t : ℤ) -
      ((A3C.record_reward cfg s r).t_start : ℤ) = (cfg.t_max : ℤ)
  · right
    rw [if_pos hc] at h
    by_cases hlt : (A3C.record_reward cfg s r).t_start <
        (A3C.record_reward cfg s r).t
    · rw [update_eq_ok hlt] at h
      simp only [Except.ok.injEq] at h
      exact ⟨hc, hlt, by rw [← h]⟩
    · rw [update_eq_error hlt] at h
      simp at h
  · left
    rw [if_neg hc] at h
    simp only [Except.ok.injEq] at h
    exact ⟨hc, by rw [← h]⟩

theorem seat_ok_elim {cfg : A3CConfig} {model : A3CModelFn Obs Act}
    {s s' : A3CState Obs} {o : Obs} {r : ℚ} {d : Bool}
    (h : A3C.stop_episode_and_train cfg model s o r d = .ok s') :
    s.t_start < s.t ∧
    s' = A3C.updateOk cfg model (A3C.record_reward cfg s r)
      (if d then none else some o) := by
  by_cases hlt : s.t_start < s.t
  · rw [seat_ok cfg model s o r d hlt] at h
    simp at h
    exact ⟨hlt, h.symm⟩
  · exfalso
    unfold A3C.stop_episode_and_train at h
    have hlt' : ¬ (A3C.record_reward cfg s r).t_start <
        (A3C.record_reward cfg s r).t := hlt
    cases d <;> simp [update_eq_error hlt'] at h

theorem runOp_inv {cfg : A3CConfig} {model : A3CModelFn Obs Act}
    {s s' : A3CState Obs} {op : A3COp Obs}
    (hs : WinInv cfg s) (h : runOp cfg model s op = .ok s') :
    WinInv cfg s' := by
  obtain ⟨h1, h2⟩ := hs
  cases op with
  | act_and_train o r =>
    cases haat : A3C.act_and_train cfg model s o r with
    | error e => simp [runOp, haat] at h
    | ok p =>
      simp [runOp, haat] at h
      rcases aat_ok_cases haat with ⟨hc, he⟩ | ⟨hc, hlt, he⟩
      · rw [← h, he]
        unfold WinInv A3C.addEntry A3C.record_reward
        constructor
        · simp
          omega
        · simp
          omega
      · rw [← h, he]
        unfold WinInv A3C.addEntry A3C.updateOk A3C.record_reward
        constructor
        · simp
        · simp
          omega
  | act o =>
    simp [runOp, A3C.act] at h
    rw [← h]
    exact ⟨h1, h2⟩
  | stop_episode_and_train o r d =>
    obtain ⟨hlt, he⟩ := seat_ok_elim h
    rw [he]
    unfold WinInv A3C.updateOk A3C.record_reward
    constructor
    · simp
    · simp
  | stop_episode =>
    simp [runOp, A3C.stop_episode] at h
    rw [← h]
    exact ⟨h1, h2⟩

theorem runOps_inv {cfg : A3CConfig} {model : A3CModelFn Obs Act} :
    ∀ (ops : List (A3COp Obs)) (s s' : A3CState Obs), WinInv cfg s →
    runOps cfg model s ops = .ok s' → WinInv cfg s' := by
  intro ops
  induction ops with
  | nil =>
    intro s s' hs h
    simp [runOps] at h
    rw [← h]
    exact hs
  | cons op ops ih =>
    intro s s' hs h
    unfold runOps at h
    cases hop : runOp cfg model s op with
    | error e => rw [hop] at h; simp at h
    | ok s1 =>
      rw [hop] at h
      exact ih s1 s' (runOp_inv hs hop) h

/-- C5: one act_and_train call runs an update exactly when the window
length at entry equals the horizon, an update that bootstraps on the
current observation and consumes exactly the old window before the new
entry is recorded; consequently the window length of any state reachable
from a fresh agent never exceeds the horizon, and in the section 8.7
scenario exactly one update happens, after the third act_and_train call and
not before. -/
theorem act_and_train_update_boundary (cfg : A3CConfig)
    (model : A3CModelFn Obs Act) (s : A3CState Obs) (o : Obs) (r : ℚ)
    (a : Act) (s' : A3CState Obs) (ops : List (A3COp Obs))
    (sR : A3CState Obs)
    (hOk : A3C.act_and_train cfg model s o r = .ok (a, s'))
    (hRun : runOps cfg model A3C.initial ops = .ok sR) :
    UpdateBoundarySpec cfg model s o r s' ∧
    (sR.t : ℤ) - (sR.t_start : ℤ) ≤ (cfg.t_max : ℤ) ∧
    Scenario87 := by
  refine ⟨?_, ?_, ?_⟩
  · rcases aat_ok_cases hOk with ⟨hc, he⟩ | ⟨hc, hlt, he⟩
    all_goals replace he : s' = _ := he
    · have hh : s'.history = s.history := by
        rw [he]
        unfold A3C.addEntry A3C.record_reward
        simp
      refine ⟨?_, fun _ => hh, fun h => absurd h hc⟩
      constructor
      · intro hlen
        rw [hh] at hlen
        omega
      · intro h
        exact absurd h hc
    · have hh : s'.history = s.history ++
          [A3C.updateRec cfg model (A3C.record_reward cfg s r) (some o)] := by
        rw [he]
        unfold A3C.addEntry A3C.updateOk A3C.record_reward
        simp
      refine ⟨?_, fun h => absurd hc h, fun _ => ⟨hh, rfl, ?_, ?_, ?_⟩⟩
      · constructor
        · intro _
          exact hc
        · intro _
          rw [hh]
          simp
      · rw [he]
        unfold A3C.addEntry A3C.updateOk A3C.record_reward
        simp
      · rw [he]
        unfold A3C.addEntry A3C.updateOk A3C.record_reward
        simp
      · rw [he]
        unfold A3C.addEntry A3C.updateOk A3C.record_reward
        simp [dinsert]
  · have hInv : WinInv cfg (A3C.initial : A3CState Obs) := by
      unfold WinInv A3C.initial
      simp
    exact (runOps_inv ops A3C.initial sR hInv hRun).2
  · exact ⟨rfl, rfl, rfl, rfl⟩

theorem act_and_train_update_boundary_witness :
    UpdateBoundarySpec cfg87 mZero (A3C.initial : A3CState ℚ) 0 0 p5.2 ∧
    (((A3C.initial : A3CState ℚ).t : ℤ) -
      ((A3C.initial : A3CState ℚ).t_start : ℤ) ≤ (cfg87.t_max : ℤ)) ∧
    Scenario87 :=
  act_and_train_update_boundary cfg87 mZero A3C.initial 0 0 p5.1 p5.2 []
    A3C.initial rfl rfl

theorem updateLoop_returnsAcc (cfg : A3CConfig)
    (havg : cfg.use_average_reward = false) (rw vf lp ent : ℤ → ℚ)
    (t0 : ℤ) :
    ∀ (n : ℕ) (ls : LoopState),
    (updateLoop cfg rw vf lp ent t0 n ls).returnsAcc =
      ls.returnsAcc ++ loopReturns cfg.gamma rw t0 n ls.R := by
  intro n
  induction n with
  | zero => intro ls; simp [updateLoop, loopReturns]
  | succ n ih =>
    intro ls
    simp only [updateLoop, loopReturns, havg, Bool.false_eq_true, if_false]
    rw [ih]
    simp

theorem loopReturns_getD (gamma : ℚ) (rw : ℤ → ℚ) (t0 : ℤ) :
    ∀ (n m : ℕ) (R : ℚ), m < n →
    (loopReturns gamma rw t0 n R).getD m 0 =
      (∑ j ∈ Finset.range (m + 1),
        gamma ^ j * rw (t0 + ((n - (m + 1) : ℕ) : ℤ) + (j : ℤ))) +
      gamma ^ (m + 1) * R := by
  intro n
  induction n with
  | zero => intro m R hm; omega
  | succ n ih =>
    intro m R hm
    cases m with
    | zero =>
      simp [loopReturns, Finset.sum_range_one]
      ring
    | succ m =>
      have hmn : m < n := by omega
      simp only [loopReturns, List.getD_cons_succ]
      rw [ih m _ hmn]
      have hsub : (n + 1 - (m + 1 + 1) : ℕ) = (n - (m + 1) : ℕ) := by
        omega
      rw [hsub]
      conv_rhs => rw [Finset.sum_range_succ]
      have hcast : t0 + ((n - (m + 1) : ℕ) : ℤ) + ((m + 1 : ℕ) : ℤ) =
          t0 + (n : ℤ) := by
        omega
      rw [hcast]
      ring

/-- C1 amended: with average-reward mode off, the return computed for step
t_start + k over a window of length n with bootstrap R0 equals
sum over j in [k, n-1] of gamma ^ (j - k) times r_j, plus
gamma ^ (n - k) times R0 (the claim's exponent j - k + 1 on the rewards is
off by one: the reward at the step itself enters undiscounted). -/
theorem update_return_closed_form (cfg : A3CConfig)
    (model : A3CModelFn Obs Act) (s s' : A3CState Obs) (sv : Option Obs)
    (k : ℕ) (havg : cfg.use_average_reward = false)
    (hOk : A3C.update cfg model s sv = .ok s')
    (hk : k < s.t - s.t_start) :
    s'.history = s.history ++ [A3C.updateRec cfg model s sv] ∧
    returnAt (A3C.updateRec cfg model s sv) (s.t - s.t_start) k =
      (∑ j ∈ Finset.range (s.t - s.t_start - k),
        cfg.gamma ^ j *
          dget s.past_rewards ((s.t_start : ℤ) + (k : ℤ) + (j : ℤ))) +
      cfg.gamma ^ (s.t - s.t_start - k) *
        (A3C.updateRec cfg model s sv).R0 := by
  have hs' := update_ok_elim hOk
  constructor
  · rw [hs']
    unfold A3C.updateOk
    simp
  · have hret : (A3C.updateRec cfg model s sv).returns =
        loopReturns cfg.gamma (dget s.past_rewards) (s.t_start : ℤ)
          (s.t - s.t_start) (bootstrapValue model sv) := by
      show (A3C.updateLS cfg model s sv).returnsAcc = _
      unfold A3C.updateLS
      rw [updateLoop_returnsAcc cfg havg]
      simp
    have hR0 : (A3C.updateRec cfg model s sv).R0 = bootstrapValue model sv :=
      rfl
    unfold returnAt
    rw [hret, hR0]
    rw [loopReturns_getD cfg.gamma (dget s.past_rewards) (s.t_start : ℤ)
      (s.t - s.t_start) (s.t - s.t_start - 1 - k) (bootstrapValue model sv)
      (by omega)]
    have h1 : s.t - s.t_start - 1 - k + 1 = s.t - s.t_start - k := by omega
    rw [h1]
    have h2 : (s.t - s.t_start - (s.t - s.t_start - k) : ℕ) = k := by omega
    rw [h2]

/-- C1 counterexample: a window of length one with reward 1, value 0,
gamma 1/2 and terminal bootstrap R0 = 0.  The code computes return 1 at
window position 0, while the claim's closed form
sum of gamma ^ (j - k + 1) * r_j plus gamma ^ (n - k) * R0 gives 1/2. -/
theorem update_return_spec_formula_false :
    A3C.update cfgC1 mZero sC1 none = .ok sC1' ∧
    sC1'.history = [recC1] ∧
    returnAt recC1 1 0 = 1 ∧
    specClaimReturn cfgC1.gamma recC1.R0
      (fun j => dget sC1.past_rewards ((sC1.t_start : ℤ) + (j : ℤ))) 1 0 =
      1 / 2 ∧
    returnAt recC1 1 0 ≠
      specClaimReturn cfgC1.gamma recC1.R0
        (fun j => dget sC1.past_rewards ((sC1.t_start : ℤ) + (j : ℤ))) 1 0 := by
  have hA : returnAt recC1 1 0 = 1 := by
    norm_num [returnAt, recC1, sC1', exOk, A3C.update, A3C.updateOk,
      A3C.updateRec, A3C.updateLS, updateLoop, dget, dlookup, sC1, cfgC1,
      mZero, bootstrapValue, recDefault]
  have hB : specClaimReturn cfgC1.gamma recC1.R0
      (fun j => dget sC1.past_rewards ((sC1.t_start : ℤ) + (j : ℤ))) 1 0 =
      1 / 2 := by
    norm_num [specClaimReturn, Finset.sum_range_one, recC1, sC1', exOk,
      A3C.update, A3C.updateOk, A3C.updateRec, A3C.updateLS, updateLoop,
      dget, dlookup, sC1, cfgC1, mZero, bootstrapValue, recDefault]
  refine ⟨rfl, rfl, hA, hB, ?_⟩
  rw [hA, hB]
  norm_num

theorem update_return_closed_form_witness :
    cfgC1.use_average_reward = false ∧
    A3C.update cfgC1 mZero sC1 none = .ok sC1' ∧ 0 < sC1.t - sC1.t_start ∧
    (sC1'.history = sC1.history ++ [A3C.updateRec cfgC1 mZero sC1 none] ∧
     returnAt (A3C.updateRec cfgC1 mZero sC1 none) (sC1.t - sC1.t_start) 0 =
       (∑ j ∈ Finset.range (sC1.t - sC1.t_start - 0),
         cfgC1.gamma ^ j *
           dget sC1.past_rewards ((sC1.t_start : ℤ) + (0 : ℤ) + (j : ℤ))) +
       cfgC1.gamma ^ (sC1.t - sC1.t_start - 0) *
         (A3C.updateRec cfgC1 mZero sC1 none).R0) :=
  ⟨rfl, rfl, by decide,
   update_return_closed_form cfgC1 mZero sC1 sC1' none 0 rfl rfl
     (by decide)⟩

theorem updateLoop_traceAcc (cfg : A3CConfig)
    (havg : cfg.use_average_reward = true) (rw vf lp ent : ℤ → ℚ)
    (t0 : ℤ) :
    ∀ (n : ℕ) (ls : LoopState),
    (updateLoop cfg rw vf lp ent t0 n ls).traceAcc =
      ls.traceAcc ++
        avgTrace cfg.gamma cfg.average_reward_tau rw vf t0 n ls.R
          ls.average_reward := by
  intro n
  induction n with
  | zero => intro ls; simp [updateLoop, avgTrace]
  | succ n ih =>
    intro ls
    simp only [updateLoop, avgTrace, havg, if_true]
    rw [ih]
    simp

theorem avgTrace_length (gamma tau : ℚ) (rw vf : ℤ → ℚ) (t0 : ℤ) :
    ∀ (n : ℕ) (R b : ℚ),
    (avgTrace gamma tau rw vf t0 n R b).length = n := by
  intro n
  induction n with
  | zero => intro R b; simp [avgTrace]
  | succ n ih => intro R b; simp [avgTrace, ih]

theorem avgTrace_getD_fst (gamma tau : ℚ) (rw vf : ℤ → ℚ) (t0 : ℤ) :
    ∀ (n m : ℕ) (R b : ℚ), m < n →
    ((avgTrace gamma tau rw vf t0 n R b).getD m (0, 0, 0)).1 =
      t0 + ((n - (m + 1) : ℕ) : ℤ) := by
  intro n
  induction n with
  | zero => intro m R b hm; omega
  | succ n ih =>
    intro m R b hm
    cases m with
    | zero => simp [avgTrace]
    | succ m =>
      simp only [avgTrace, List.getD_cons_succ]
      rw [ih m _ _ (by omega)]
      have : (n + 1 - (m + 1 + 1) : ℕ) = (n - (m + 1) : ℕ) := by omega
      rw [this]

theorem avgTrace_base_sum (gamma tau : ℚ) (rw vf : ℤ → ℚ) (t0 : ℤ) :
    ∀ (n m : ℕ) (R b : ℚ), m < n →
    ((avgTrace gamma tau rw vf t0 n R b).getD m (0, 0, 0)).2.1 =
      b + tau * ∑ j ∈ Finset.range m,
        ((avgTrace gamma tau rw vf t0 n R b).getD j (0, 0, 0)).2.2 := by
  intro n
  induction n with
  | zero => intro m R b hm; omega
  | succ n ih =>
    intro m R b hm
    cases m with
    | zero => simp [avgTrace]
    | succ m =>
      rw [Finset.sum_range_succ']
      simp only [avgTrace, List.getD_cons_succ, List.getD_cons_zero]
      rw [ih m _ _ (by omega)]
      ring

/-- C2: with average-reward mode on, an update processes the window steps
in strictly descending index order from t-1 down to t_start (the m-th
processed step has index t-1-m), the baseline used when computing the
advantage of the m-th processed step equals the entry baseline plus
tau times the advantages of exactly the already-processed steps (indices
greater than t-1-m), not including the step's own advantage, and that own
increment is in force at the next processed step. -/
theorem average_reward_baseline_ordering (cfg : A3CConfig)
    (model : A3CModelFn Obs Act) (s s' : A3CState Obs) (sv : Option Obs)
    (m : ℕ) (havg : cfg.use_average_reward = true)
    (hOk : A3C.update cfg model s sv = .ok s')
    (hm : m < s.t - s.t_start) :
    s'.history = s.history ++ [A3C.updateRec cfg model s sv] ∧
    (A3C.updateRec cfg model s sv).trace.length = s.t - s.t_start ∧
    stepIndexAt (A3C.updateRec cfg model s sv) m =
      (s.t : ℤ) - 1 - (m : ℤ) ∧
    baselineUsedAt (A3C.updateRec cfg model s sv) m =
      s.average_reward + cfg.average_reward_tau *
        ∑ j ∈ Finset.range m, advantageAt (A3C.updateRec cfg model s sv) j ∧
    (m + 1 < s.t - s.t_start →
      baselineUsedAt (A3C.updateRec cfg model s sv) (m + 1) =
        baselineUsedAt (A3C.updateRec cfg model s sv) m +
          cfg.average_reward_tau *
            advantageAt (A3C.updateRec cfg model s sv) m) := by
  have hs' := update_ok_elim hOk
  have htr : (A3C.updateRec cfg model s sv).trace =
      avgTrace cfg.gamma cfg.average_reward_tau (dget s.past_rewards)
        (dget s.past_values) (s.t_start : ℤ) (s.t - s.t_start)
        (bootstrapValue model sv) s.average_reward := by
    show (A3C.updateLS cfg model s sv).traceAcc = _
    unfold A3C.updateLS
    rw [updateLoop_traceAcc cfg havg]
    simp
  refine ⟨?_, ?_, ?_, ?_, ?_⟩
  · rw [hs']
    unfold A3C.updateOk
    simp
  · rw [htr, avgTrace_length]
  · unfold stepIndexAt traceEntryAt
    rw [htr, avgTrace_getD_fst _ _ _ _ _ _ _ _ _ hm]
    omega
  · unfold baselineUsedAt advantageAt traceEntryAt
    rw [htr, avgTrace_base_sum _ _ _ _ _ _ _ _ _ hm]
  · intro hm1
    unfold baselineUsedAt advantageAt traceEntryAt
    rw [htr, avgTrace_base_sum _ _ _ _ _ _ _ _ _ hm1,
      avgTrace_base_sum _ _ _ _ _ _ _ _ _ hm, Finset.sum_range_succ]
    ring

theorem average_reward_baseline_ordering_witness :
    cfgC2.use_average_reward = true ∧
    A3C.update cfgC2 mZero sC2 none = .ok sC2' ∧ 0 < sC2.t - sC2.t_start ∧
    (sC2'.history = sC2.history ++ [A3C.updateRec cfgC2 mZero sC2 none] ∧
     (A3C.updateRec cfgC2 mZero sC2 none).trace.length =
       sC2.t - sC2.t_start ∧
     stepIndexAt (A3C.updateRec cfgC2 mZero sC2 none) 0 =
       (sC2.t : ℤ) - 1 - (0 : ℤ) ∧
     baselineUsedAt (A3C.updateRec cfgC2 mZero sC2 none) 0 =
       sC2.average_reward + cfgC2.average_reward_tau *
         ∑ j ∈ Finset.range 0,
           advantageAt (A3C.updateRec cfgC2 mZero sC2 none) j ∧
     (0 + 1 < sC2.t - sC2.t_start →
       baselineUsedAt (A3C.updateRec cfgC2 mZero sC2 none) (0 + 1) =
         baselineUsedAt (A3C.updateRec cfgC2 mZero sC2 none) 0 +
           cfgC2.average_reward_tau *
             advantageAt (A3C.updateRec cfgC2 mZero sC2 none) 0)) :=
  ⟨rfl, rfl, by decide,
   average_reward_baseline_ordering cfgC2 mZero sC2 sC2' none 0 rfl rfl
     (by decide)⟩

theorem rewEquiv_refl (s : A3CState Obs) : RewEquiv s s :=
  ⟨rfl, rfl, rfl, rfl, rfl, rfl, rfl, rfl, fun _ _ => rfl⟩

theorem updateLoop_congr (cfg : A3CConfig) (vf lp ent : ℤ → ℚ) (t0 : ℤ) :
    ∀ (n : ℕ) (rw1 rw2 : ℤ → ℚ) (ls : LoopState),
    (∀ i : ℤ, t0 ≤ i → i < t0 + n → rw1 i = rw2 i) →
    updateLoop cfg rw1 vf lp ent t0 n ls =
      updateLoop cfg rw2 vf lp ent t0 n ls := by
  intro n
  induction n with
  | zero => intro rw1 rw2 ls _; simp [updateLoop]
  | succ n ih =>
    intro rw1 rw2 ls h
    have hn : rw1 (t0 + (n : ℤ)) = rw2 (t0 + (n : ℤ)) := by
      apply h <;> omega
    simp only [updateLoop]
    rw [hn]
    exact ih rw1 rw2 _ (fun i h1 h2 => h i h1 (by omega))

theorem update_rewEquiv {cfg : A3CConfig} {model : A3CModelFn Obs Act}
    {s1 s2 : A3CState Obs} (sv : Option Obs) (h : RewEquiv s1 s2) :
    StepRel (A3C.update cfg model s1 sv) (A3C.update cfg model s2 sv) := by
  obtain ⟨ht, hts, hlp, hent, hst, hv, hav, hh, hrw⟩ := h
  by_cases hlt : s1.t_start < s1.t
  · have hlt2 : s2.t_start < s2.t := by rw [← ht, ← hts]; exact hlt
    have hLS : A3C.updateLS cfg model s1 sv =
        A3C.updateLS cfg model s2 sv := by
      unfold A3C.updateLS
      rw [hlp, hent, hv, hav, ht, hts]
      apply updateLoop_congr
      intro i hi1 hi2
      unfold dget
      rw [hrw i (by rw [hts]; exact hi1)]
    have hRec : A3C.updateRec cfg model s1 sv =
        A3C.updateRec cfg model s2 sv := by
      unfold A3C.updateRec
      rw [hLS, ht, hts]
    have hOkEq : A3C.updateOk cfg model s1 sv =
        A3C.updateOk cfg model s2 sv := by
      unfold A3C.updateOk
      rw [hLS, hRec, ht, hh]
    rw [update_eq_ok hlt, update_eq_ok hlt2]
    simp only [StepRel]
    rw [hOkEq]
    exact rewEquiv_refl _
  · have hlt2 : ¬ s2.t_start < s2.t := by rw [← ht, ← hts]; exact hlt
    rw [update_eq_error hlt, update_eq_error hlt2]
    simp only [StepRel]
    exact ⟨ht, hts, hlp, hent, hst, hv, hav, hh, hrw⟩

theorem record_rewEquiv (cfg : A3CConfig) {s1 s2 : A3CState Obs} (r : ℚ)
    (h : RewEquiv s1 s2) :
    RewEquiv (A3C.record_reward cfg s1 r) (A3C.record_reward cfg s2 r) := by
  obtain ⟨ht, hts, hlp, hent, hst, hv, hav, hh, hrw⟩ := h
  unfold A3C.record_reward
  refine ⟨ht, hts, hlp, hent, hst, hv, hav, hh, ?_⟩
  intro i hi
  simp only
  rw [dlookup_dinsert, dlookup_dinsert, ht]
  by_cases hk : i = (s2.t : ℤ) - 1
  · rw [if_pos hk, if_pos hk]
  · rw [if_neg hk, if_neg hk]
    exact hrw i hi

theorem addEntry_rewEquiv (model : A3CModelFn Obs Act)
    {s1 s2 : A3CState Obs} (o : Obs) (h : RewEquiv s1 s2) :
    RewEquiv (A3C.addEntry model s1 o) (A3C.addEntry model s2 o) := by
  obtain ⟨ht, hts, hlp, hent, hst, hv, hav, hh, hrw⟩ := h
  unfold A3C.addEntry
  exact ⟨by rw [ht], hts, by rw [hlp, ht], by rw [hent, ht],
    by rw [hst, ht], by rw [hv, ht], hav, hh, fun i hi => hrw i hi⟩

theorem train_after_record_rel (cfg : A3CConfig)
    (model : A3CModelFn Obs Act) {u1 u2 : A3CState Obs} (o : Obs)
    (h : RewEquiv u1 u2) :
    StepRel
      (match A3C.train_step cfg model u1 o with
       | .error e => .error e
       | .ok p => .ok p.2)
      (match A3C.train_step cfg model u2 o with
       | .error e => .error e
       | .ok p => .ok p.2) := by
  have ht := h.1
  have hts := h.2.1
  unfold A3C.train_step
  by_cases hc : (u1.t : ℤ) - (u1.t_start : ℤ) = (cfg.t_max : ℤ)
  · have hc2 : (u2.t : ℤ) - (u2.t_start : ℤ) = (cfg.t_max : ℤ) := by
      rw [← ht, ← hts]; exact hc
    rw [if_pos hc, if_pos hc2]
    have hrel := @update_rewEquiv _ _ cfg model _ _ (some o) h
    cases hu1 : A3C.update cfg model u1 (some o) with
    | error e1 =>
      cases hu2 : A3C.update cfg model u2 (some o) with
      | error e2 =>
        rw [hu1, hu2] at hrel
        simp only [StepRel] at hrel ⊢
        exact hrel
      | ok p2 =>
        rw [hu1, hu2] at hrel
        simp only [StepRel] at hrel
    | ok p1 =>
      cases hu2 : A3C.update cfg model u2 (some o) with
      | error e2 =>
        rw [hu1, hu2] at hrel
        simp only [StepRel] at hrel
      | ok p2 =>
        rw [hu1, hu2] at hrel
        simp only [StepRel] at hrel ⊢
        exact addEntry_rewEquiv model o hrel
  · have hc2 : ¬ (u2.t : ℤ) - (u2.t_start : ℤ) = (cfg.t_max : ℤ) := by
      rw [← ht, ← hts]; exact hc
    rw [if_neg hc, if_neg hc2]
    simp only [StepRel]
    exact addEntry_rewEquiv model o h

theorem runOp_aat_eq (cfg : A3CConfig) (model : A3CModelFn Obs Act)
    (s : A3CState Obs) (o : Obs) (r : ℚ) :
    runOp cfg model s (.act_and_train o r) =
      match A3C.train_step cfg model (A3C.record_reward cfg s r) o with
      | .error e => .error e
      | .ok p => .ok p.2 := by
  simp only [runOp]
  unfold A3C.act_and_train
  cases A3C.train_step cfg model (A3C.record_reward cfg s r) o with
  | error e => rfl
  | ok p => obtain ⟨a, s'⟩ := p; rfl

theorem runOp_rel {cfg : A3CConfig} {model : A3CModelFn Obs Act}
    {s1 s2 : A3CState Obs} (op : A3COp Obs) (h : RewEquiv s1 s2) :
    StepRel (runOp cfg model s1 op) (runOp cfg model s2 op) := by
  cases op with
  | act_and_train o r =>
    rw [runOp_aat_eq, runOp_aat_eq]
    exact train_after_record_rel cfg model o (record_rewEquiv cfg r h)
  | act o =>
    simp only [runOp, A3C.act, StepRel]
    exact h
  | stop_episode_and_train o r d =>
    have h1 := record_rewEquiv cfg r h
    simp only [runOp]
    unfold A3C.stop_episode_and_train
    cases d
    · simpa using @update_rewEquiv _ _ cfg model _ _ (some o) h1
    · simpa using @update_rewEquiv _ _ cfg model _ _ none h1
  | stop_episode =>
    simp only [runOp, A3C.stop_episode, StepRel]
    exact h

theorem runOps_rel {cfg : A3CConfig} {model : A3CModelFn Obs Act} :
    ∀ (ops : List (A3COp Obs)) (s1 s2 : A3CState Obs), RewEquiv s1 s2 →
    StepRel (runOps cfg model s1 ops) (runOps cfg model s2 ops) := by
  intro ops
  induction ops with
  | nil =>
    intro s1 s2 h
    simp only [runOps, StepRel]
    exact h
  | cons op ops ih =>
    intro s1 s2 h
    have hop := @runOp_rel _ _ cfg model _ _ op h
    unfold runOps
    cases h1 : runOp cfg model s1 op with
    | error e1 =>
      cases h2 : runOp cfg model s2 op with
      | error e2 =>
        rw [h1, h2] at hop
        simp only [StepRel] at hop ⊢
        exact hop
      | ok p2 =>
        rw [h1, h2] at hop
        simp only [StepRel] at hop
    | ok p1 =>
      cases h2 : runOp cfg model s2 op with
      | error e2 =>
        rw [h1, h2] at hop
        simp only [StepRel] at hop
      | ok p2 =>
        rw [h1, h2] at hop
        simp only [StepRel] at hop
        exact ih p1 p2 hop

theorem stepRel_runObsRel {x y : Except (A3CState Obs) (A3CState Obs)}
    (h : StepRel x y) : RunObsRel x y := by
  cases x with
  | error e1 =>
    cases y with
    | error e2 =>
      simp only [StepRel] at h
      simp only [RunObsRel]
      exact ⟨h.2.2.2.2.2.2.2.1, h.1, h.2.1, h.2.2.2.2.2.2.1⟩
    | ok p2 => simp only [StepRel] at h
  | ok p1 =>
    cases y with
    | error e2 => simp only [StepRel] at h
    | ok p2 =>
      simp only [StepRel] at h
      simp only [RunObsRel]
      exact ⟨h.2.2.2.2.2.2.2.1, h.1, h.2.1, h.2.2.2.2.2.2.1⟩

/-- C10: the reward passed to the first act_and_train after construction or
after a completed stop_episode_and_train (a state with t = t_start) is
stored at index t - 1 = t_start - 1, below the open window; two executions
that differ only in that reward produce the same success/failure pattern
and observably equal agents: identical update histories (returns, losses,
update count), counters and average-reward baseline. -/
theorem first_reward_noninterference (cfg : A3CConfig)
    (model : A3CModelFn Obs Act) (s : A3CState Obs) (o : Obs) (r1 r2 : ℚ)
    (ops : List (A3COp Obs)) (hts : s.t = s.t_start) :
    (s.t : ℤ) - 1 < (s.t_start : ℤ) ∧
    dlookup ((s.t : ℤ) - 1) (A3C.record_reward cfg s r1).past_rewards =
      some (if cfg.clip_reward then npClip r1 else r1) ∧
    RunObsRel (runOps cfg model s (A3COp.act_and_train o r1 :: ops))
      (runOps cfg model s (A3COp.act_and_train o r2 :: ops)) := by
  refine ⟨by omega, ?_, ?_⟩
  · unfold A3C.record_reward
    dsimp only
    rw [dlookup_dinsert, if_pos rfl]
  · have h1 : RewEquiv (A3C.record_reward cfg s r1)
        (A3C.record_reward cfg s r2) := by
      unfold A3C.record_reward
      refine ⟨rfl, rfl, rfl, rfl, rfl, rfl, rfl, rfl, ?_⟩
      intro i hi
      dsimp only at hi ⊢
      rw [dlookup_dinsert, dlookup_dinsert, if_neg (by omega),
        if_neg (by omega)]
    have hstep := train_after_record_rel cfg model o h1
    apply stepRel_runObsRel
    unfold runOps
    rw [runOp_aat_eq, runOp_aat_eq]
    cases hu1 : (match A3C.train_step cfg model (A3C.record_reward cfg s r1) o
        with
       | .error e => Except.error e
       | .ok p => Except.ok p.2) with
    | error e1 =>
      cases hu2 : (match A3C.train_step cfg model
          (A3C.record_reward cfg s r2) o with
         | .error e => Except.error e
         | .ok p => Except.ok p.2) with
      | error e2 =>
        rw [hu1, hu2] at hstep
        simp only [StepRel] at hstep ⊢
        exact hstep
      | ok p2 =>
        rw [hu1, hu2] at hstep
        simp only [StepRel] at hstep
    | ok p1 =>
      cases hu2 : (match A3C.train_step cfg model
          (A3C.record_reward cfg s r2) o with
         | .error e => Except.error e
         | .ok p => Except.ok p.2) with
      | error e2 =>
        rw [hu1, hu2] at hstep
        simp only [StepRel] at hstep
      | ok p2 =>
        rw [hu1, hu2] at hstep
        simp only [StepRel] at hstep
        exact runOps_rel ops p1 p2 hstep

theorem first_reward_noninterference_witness :
    (A3C.initial : A3CState ℚ).t = (A3C.initial : A3CState ℚ).t_start ∧
    (((A3C.initial : A3CState ℚ).t : ℤ) - 1 <
      ((A3C.initial : A3CState ℚ).t_start : ℤ) ∧
     dlookup (((A3C.initial : A3CState ℚ).t : ℤ) - 1)
       (A3C.record_reward cfg87 (A3C.initial : A3CState ℚ) 5).past_rewards =
         some (if cfg87.clip_reward then npClip 5 else 5) ∧
     RunObsRel
       (runOps cfg87 mZero A3C.initial
         (A3COp.act_and_train 0 5 :: [A3COp.stop_episode_and_train 0 1 true]))
       (runOps cfg87 mZero A3C.initial
         (A3COp.act_and_train 0 7 ::
           [A3COp.stop_episode_and_train 0 1 true]))) :=
  ⟨rfl, first_reward_noninterference cfg87 mZero A3C.initial 0 5 7
    [A3COp.stop_episode_and_train 0 1 true] rfl⟩

theorem scaleLosses_closed_form_witness :
    (scaleLosses cfgC1 2 3 5 =
      (3 * cfgC1.pi_loss_coef *
        (if cfgC1.keep_loss_scale_same ∧ 2 < cfgC1.t_max then
          (cfgC1.t_max : ℚ) / ((2 : ℕ) : ℚ) else 1) /
        (if cfgC1.normalize_grad_by_t_max then ((2 : ℕ) : ℚ) else 1),
       5 * cfgC1.v_loss_coef *
        (if cfgC1.keep_loss_scale_same ∧ 2 < cfgC1.t_max then
          (cfgC1.t_max : ℚ) / ((2 : ℕ) : ℚ) else 1) /
        (if cfgC1.normalize_grad_by_t_max then ((2 : ℕ) : ℚ) else 1))) ∧
    (if cfgC1.keep_loss_scale_same ∧ 2 < cfgC1.t_max then
      (cfgC1.t_max : ℚ) / ((2 : ℕ) : ℚ) else 1) = 1 ∧
    scaleLosses { cfgC1 with keep_loss_scale_same := true } 2 3 5 =
      scaleLosses cfgC1 2 3 5 :=
  ⟨(scaleLosses_closed_form cfgC1 2 3 5).1,
   ((scaleLosses_closed_form cfgC1 2 3 5).2 rfl).1,
   ((scaleLosses_closed_form cfgC1 2 3 5).2 rfl).2 true⟩
